import Mathlib

/-!
Verification of the sova-sentinel slot-lock coordinator.

The definitions below are a shallow embedding of the Rust sources:
  * `crates/server/src/db/mod.rs`      — the Store (SQLite table `slot_locks`)
  * `crates/server/src/service/slot_lock.rs` — the LockEngine service
  * `crates/server/src/service/bitcoin.rs`   — the confirmation oracle retry wrapper

The database is modelled as the list of rows of the `slot_locks` table in
rowid (insertion) order; `created_at` is kept as an explicit field.  Machine
integers (`u64`, `u32`) are modelled as `Nat` with explicit wrap-around
`% 2^w` at the places where the Rust code performs unchecked arithmetic.
Fallible operations return `Except`; the oracle is a function
`String → Except Unit Bool` so that transport failures surface as
`Except.error ()` exactly where the Rust `?` operator aborts the request.
-/

deriving instance DecidableEq for Except

/-- A row of the `slot_locks` table (struct `LockedSlot` in `db/mod.rs`). -/
structure SlotRow where
  btc_txid : String
  btc_block : Nat
  contract_address : String
  slot_index : List Nat
  revert_value : List Nat
  current_value : List Nat
  start_block : Nat
  end_block : Option Nat
  created_at : Nat
  deriving DecidableEq, Repr

/-- Request key, mirrors proto `SlotIdentifier`. -/
structure SlotId where
  contract_address : String
  slot_index : List Nat
  deriving DecidableEq, Repr

/-- Request payload for lock operations, mirrors proto `SlotData`. -/
structure SlotData where
  contract_address : String
  slot_index : List Nat
  revert_value : List Nat
  current_value : List Nat
  btc_txid : String
  deriving DecidableEq, Repr

/-- Mirrors struct `SlotInsertData` in `db/mod.rs`. -/
structure SlotInsertData where
  contract_address : String
  start_block : Nat
  btc_block : Nat
  slot_index : List Nat
  slot_index_int : Option Int
  btc_txid : String
  revert_value : List Nat
  current_value : List Nat
  deriving DecidableEq, Repr

/-- Response status of `get_slot_status` (proto `get_slot_status_response::Status`). -/
inductive GetStatus where
  | Unlocked
  | Locked
  | Reverted
  deriving DecidableEq, Repr

/-- Response of `get_slot_status` (proto `GetSlotStatusResponse`). -/
structure GetResp where
  status : GetStatus
  contract_address : String
  slot_index : List Nat
  revert_value : List Nat
  current_value : List Nat
  deriving DecidableEq, Repr

/-- Status of a lock attempt (proto `slot_lock_status::Status`). -/
inductive LockStatus where
  | Locked
  | AlreadyLocked
  deriving DecidableEq, Repr

/-- One element of a `BatchLockSlot` response (proto `SlotLockStatus`). -/
structure SlotLockStatus where
  contract_address : String
  slot_index : List Nat
  status : LockStatus
  deriving DecidableEq, Repr

/-- The WHERE clause shared by `get_slot_query` and `batch_get_locked_slots`
(`db/mod.rs`): key equality, `(end_block IS NULL OR end_block = ?h)` and
`start_block <= ?h`. -/
def Visible (addr : String) (idx : List Nat) (h : Nat) (r : SlotRow) : Prop :=
  r.contract_address = addr ∧ r.slot_index = idx ∧ r.start_block ≤ h ∧
    (r.end_block = none ∨ r.end_block = some h)

instance (addr : String) (idx : List Nat) (h : Nat) (r : SlotRow) :
    Decidable (Visible addr idx h r) := by
  unfold Visible; exact inferInstance

/-- Rows of the table matching the visibility WHERE clause, in rowid order. -/
def visibleRows (db : List SlotRow) (addr : String) (idx : List Nat) (h : Nat) :
    List SlotRow :=
  db.filter (fun r => decide (Visible addr idx h r))

/-- `ORDER BY start_block, created_at DESC`: `b` sorts strictly before `a`. -/
def betterRow (a b : SlotRow) : Bool :=
  decide (b.start_block < a.start_block ∨
    (b.start_block = a.start_block ∧ a.created_at < b.created_at))

/-- First row of a list under `ORDER BY start_block, created_at DESC`
(the `LIMIT 1` of `get_slot_query`).  Rows tied on both sort keys keep
their relative table order. -/
def selMin : List SlotRow → Option SlotRow
  | [] => none
  | r :: rest =>
    match selMin rest with
    | none => some r
    | some b => if betterRow r b then some b else some r

/-- `get_slot_query` of `db/mod.rs`: the visible row with the least
`start_block`, ties broken by the most recent `created_at`. -/
def getSlotQuery (db : List SlotRow) (addr : String) (idx : List Nat) (h : Nat) :
    Option SlotRow :=
  selMin (visibleRows db addr idx h)

/-- Per-key result of `batch_get_locked_slots`: the query has no ORDER BY and
the result `HashMap` keeps the last row inserted for a key, i.e. the visible
row with the greatest rowid. -/
def batchGetVisible (db : List SlotRow) (addr : String) (idx : List Nat) (h : Nat) :
    Option SlotRow :=
  (visibleRows db addr idx h).getLast?

/-- `batch_get_locked_slots` of `db/mod.rs`: one optional row per input key,
in input order. -/
def batchGetLockedSlots (db : List SlotRow) (keys : List SlotId) (h : Nat) :
    List (Option SlotRow) :=
  keys.map (fun k => batchGetVisible db k.contract_address k.slot_index h)

/-- `is_slot_locked_query` of `db/mod.rs`: an active row (`end_block IS NULL`)
exists for the key.  Note: no `start_block` filter. -/
def isSlotLocked (db : List SlotRow) (addr : String) (idx : List Nat) : Bool :=
  db.any (fun r =>
    decide (r.contract_address = addr ∧ r.slot_index = idx ∧ r.end_block = none))

/-- Row transformer of the closing UPDATE: set `end_block` on an active row
of the key, leave every other row alone. -/
def closeFun (addr : String) (idx : List Nat) (endBlock : Nat) (r : SlotRow) : SlotRow :=
  if r.contract_address = addr ∧ r.slot_index = idx ∧ r.end_block = none then
    { r with end_block := some endBlock }
  else r

/-- `unlock_slot_query` of `db/mod.rs`: set `end_block` on every active row of
the key. -/
def unlockSlotTx (db : List SlotRow) (addr : String) (idx : List Nat) (endBlock : Nat) :
    List SlotRow :=
  db.map (closeFun addr idx endBlock)

/-- `batch_unlock_slots` of `db/mod.rs`: one UPDATE closing every active row
whose key occurs in the list; the `end_block` written is the one of the FIRST
tuple (`slots[0].2` in the Rust source). -/
def batchUnlockSlots (db : List SlotRow) (slots : List (String × List Nat × Nat)) :
    List SlotRow :=
  match slots with
  | [] => db
  | first :: _ =>
    db.map (fun r =>
      if (slots.any fun s =>
            decide (r.contract_address = s.1 ∧ r.slot_index = s.2.1)) = true ∧
          r.end_block = none then
        { r with end_block := some first.2.2 }
      else r)

/-- Big-endian decoding of a byte string (bytes are `% 256`). -/
def beBytesToNat (bytes : List Nat) : Nat :=
  bytes.foldl (fun acc b => acc * 256 + b % 256) 0

/-- Reinterpret a `u64` value as an `i64` (`i64::from_be_bytes`). -/
def u64ToI64 (n : Nat) : Int :=
  if n % 2 ^ 64 < 2 ^ 63 then ((n % 2 ^ 64 : Nat) : Int)
  else ((n % 2 ^ 64 : Nat) : Int) - 2 ^ 64

/-- The optional integer mirror computed by the lock paths in
`slot_lock.rs`: present iff the slot index is at most 8 bytes, value is the
big-endian decoding zero-left-padded to 8 bytes read as `i64`. -/
def slotIndexInt (idx : List Nat) : Option Int :=
  if idx.length ≤ 8 then some (u64ToI64 (beBytesToNat idx)) else none

/-- Turn insert data into a table row (`INSERT INTO slot_locks ...`), with the
`created_at` timestamp assigned by the database. -/
def toRow (now : Nat) (s : SlotInsertData) : SlotRow :=
  { btc_txid := s.btc_txid
    btc_block := s.btc_block
    contract_address := s.contract_address
    slot_index := s.slot_index
    revert_value := s.revert_value
    current_value := s.current_value
    start_block := s.start_block
    end_block := none
    created_at := now }

/-- `batch_insert_slot_locks` of `db/mod.rs`: first check `is_slot_locked` for
EVERY input against the current table, then issue one multi-value INSERT of
the inputs whose check passed.  All checks run before any insert. -/
def batchInsertSlotLocks (db : List SlotRow) (slots : List SlotInsertData) (now : Nat) :
    List Bool × List SlotRow :=
  let results := slots.map (fun s => !(isSlotLocked db s.contract_address s.slot_index))
  let toInsert := slots.filter (fun s => !(isSlotLocked db s.contract_address s.slot_index))
  (results, db ++ toInsert.map (toRow now))

/-- Build the `SlotInsertData` of `batch_lock_slot` from one request slot. -/
def mkInsertData (lockedAt btcBlock : Nat) (s : SlotData) : SlotInsertData :=
  { contract_address := s.contract_address
    start_block := lockedAt
    btc_block := btcBlock
    slot_index := s.slot_index
    slot_index_int := slotIndexInt s.slot_index
    btc_txid := s.btc_txid
    revert_value := s.revert_value
    current_value := s.current_value }

/-- `batch_lock_slot` of `slot_lock.rs`: one transaction; visibility-filtered
bulk read at `locked_at_block` decides `AlreadyLocked` vs `Locked`, then the
kept set goes through `batch_insert_slot_locks`. -/
def batchLockSlot (db : List SlotRow) (lockedAt btcBlock now : Nat)
    (slots : List SlotData) : List SlotLockStatus × List SlotRow :=
  let f := fun (s : SlotData) =>
    batchGetVisible db s.contract_address s.slot_index lockedAt
  let responses := slots.map (fun s =>
    { contract_address := s.contract_address
      slot_index := s.slot_index
      status := if (f s).isSome then LockStatus.AlreadyLocked else LockStatus.Locked
      : SlotLockStatus })
  let slotsToInsert :=
    (slots.filter (fun s => !(f s).isSome)).map (mkInsertData lockedAt btcBlock)
  (responses, (batchInsertSlotLocks db slotsToInsert now).2)

/-- Wrapping `u64` subtraction, the semantics of `a - b` on `u64` in a release
build (`block_delta` in `slot_lock.rs`). -/
def sub64 (a b : Nat) : Nat :=
  (a % 2 ^ 64 + (2 ^ 64 - b % 2 ^ 64)) % 2 ^ 64

/-- `get_slot_status` of `slot_lock.rs`, sequential semantics: read the
visible row, answer directly for absent or historical-closed rows, otherwise
consult the oracle and decide (revert window first, then confirmation) inside
a fresh transaction that re-reads the row.  The second component is the table
after the request; an oracle failure aborts before any mutation. -/
def getSlotStatus (rt : Nat) (oracle : String → Except Unit Bool)
    (db : List SlotRow) (addr : String) (idx : List Nat) (cur btc : Nat) :
    Except Unit GetResp × List SlotRow :=
  match getSlotQuery db addr idx cur with
  | none => (Except.ok ⟨GetStatus.Unlocked, addr, idx, [], []⟩, db)
  | some slotInfo =>
    let blockDelta := sub64 btc slotInfo.btc_block
    if slotInfo.end_block.isSome then
      (Except.ok ⟨if blockDelta > rt then GetStatus.Reverted else GetStatus.Unlocked,
        addr, idx, [], []⟩, db)
    else
      match oracle slotInfo.btc_txid with
      | Except.error e => (Except.error e, db)
      | Except.ok confirmed =>
        match getSlotQuery db addr idx cur with
        | some slot =>
          if blockDelta > rt then
            (Except.ok ⟨GetStatus.Reverted, addr, idx,
              slot.revert_value, slot.current_value⟩,
             unlockSlotTx db addr idx cur)
          else if confirmed then
            (Except.ok ⟨GetStatus.Unlocked, addr, idx, [], []⟩,
             unlockSlotTx db addr idx cur)
          else
            (Except.ok ⟨GetStatus.Locked, addr, idx, [], []⟩, db)
        | none => (Except.ok ⟨GetStatus.Unlocked, addr, idx, [], []⟩, db)

/-- Response built for a historical-closed row in `batch_get_slot_status`:
terminal status from the block delta, values included only on `Reverted`. -/
def mkClosedResp (rt btc : Nat) (r : SlotRow) : GetResp :=
  { status := if sub64 btc r.btc_block > rt then GetStatus.Reverted else GetStatus.Unlocked
    contract_address := r.contract_address
    slot_index := r.slot_index
    revert_value := if sub64 btc r.btc_block > rt then r.revert_value else []
    current_value := if sub64 btc r.btc_block > rt then r.current_value else [] }

/-- Per-active-row decision of `batch_get_slot_status` (`slot_lock.rs`
lines 606–648): unlock when the delta exceeded the threshold or the
transaction confirmed; `Reverted` (with values) wins over `Unlocked`. -/
def activeDecision (rt btc : Nat) (confirmed : Bool) (r : SlotRow) : GetResp :=
  if sub64 btc r.btc_block > rt ∨ confirmed = true then
    if sub64 btc r.btc_block > rt then
      { status := GetStatus.Reverted
        contract_address := r.contract_address
        slot_index := r.slot_index
        revert_value := r.revert_value
        current_value := r.current_value }
    else
      { status := GetStatus.Unlocked
        contract_address := r.contract_address
        slot_index := r.slot_index
        revert_value := []
        current_value := [] }
  else
    { status := GetStatus.Locked
      contract_address := r.contract_address
      slot_index := r.slot_index
      revert_value := []
      current_value := [] }

/-- Historical-closed partition of a batch status request: the inputs whose
bulk read returned a row with `end_block` set, in input order. -/
def closedPartition (db : List SlotRow) (cur : Nat) (slots : List SlotId) :
    List SlotRow :=
  slots.filterMap (fun s =>
    (batchGetVisible db s.contract_address s.slot_index cur).bind
      (fun r => if r.end_block.isSome then some r else none))

/-- Active partition of a batch status request: the inputs whose bulk read
returned an active row, in input order. -/
def activePartition (db : List SlotRow) (cur : Nat) (slots : List SlotId) :
    List SlotRow :=
  slots.filterMap (fun s =>
    (batchGetVisible db s.contract_address s.slot_index cur).bind
      (fun r => if r.end_block.isSome then none else some r))

/-- Absent partition of a batch status request: the inputs whose bulk read
returned no row, in input order. -/
def absentPartition (db : List SlotRow) (cur : Nat) (slots : List SlotId) :
    List SlotId :=
  slots.filter (fun s =>
    (batchGetVisible db s.contract_address s.slot_index cur).isNone)

/-- Query the oracle for each active row; any failure aborts the batch
(`futures::future::try_join_all` in the source). -/
def collectConfirms (oracle : String → Except Unit Bool) :
    List SlotRow → Except Unit (List Bool)
  | [] => Except.ok []
  | r :: rest =>
    match oracle r.btc_txid with
    | Except.error e => Except.error e
    | Except.ok c =>
      match collectConfirms oracle rest with
      | Except.error e => Except.error e
      | Except.ok cs => Except.ok (c :: cs)

/-- `batch_get_slot_status` of `slot_lock.rs`: bulk read, partition into
historical-closed / active / absent, oracle phase for the active rows, one
bulk close, and a response assembled as closed responses, then active
responses, then absent responses (each group in input order). -/
def batchGetSlotStatus (rt : Nat) (oracle : String → Except Unit Bool)
    (db : List SlotRow) (cur btc : Nat) (slots : List SlotId) :
    Except Unit (List GetResp) × List SlotRow :=
  let closedRows := closedPartition db cur slots
  let activeRows := activePartition db cur slots
  let initialSlots := closedRows.map (mkClosedResp rt btc)
  let notLocked := (absentPartition db cur slots).map (fun s =>
    (⟨GetStatus.Unlocked, s.contract_address, s.slot_index, [], []⟩ : GetResp))
  match collectConfirms oracle activeRows with
  | Except.error e => (Except.error e, db)
  | Except.ok confirms =>
    let results := (activeRows.zip confirms).map (fun p => activeDecision rt btc p.2 p.1)
    let toUnlock := (activeRows.zip confirms).filterMap (fun p =>
      if sub64 btc p.1.btc_block > rt ∨ p.2 = true then
        some (p.1.contract_address, p.1.slot_index, cur)
      else none)
    (Except.ok (initialSlots ++ results ++ notLocked), batchUnlockSlots db toUnlock)

/-- Number of active rows for a key (invariant I1 counts these). -/
def activeCount (db : List SlotRow) (addr : String) (idx : List Nat) : Nat :=
  (db.filter (fun r =>
    decide (r.contract_address = addr ∧ r.slot_index = idx ∧ r.end_block = none))).length

/-- Invariant I1: at most one active row per `(contract_address, slot_index)`. -/
def SingleActiveInv (db : List SlotRow) : Prop :=
  ∀ addr idx, activeCount db addr idx ≤ 1

/-! ## Confirmation oracle retry model (`service/bitcoin.rs`) -/

/-- Result of one underlying RPC attempt: success, a transport-class failure
(`Error::JsonRpc(Transport(_))`), or a structured remote RPC error. -/
inductive RpcResult (α : Type) where
  | ok (val : α)
  | transportErr
  | rpcErr (code : Int)
  deriving DecidableEq, Repr

/-- Outcome of `with_retry`: success, a non-retried operation failure
(anyhow "Operation failed"), or `BitcoinNodeUnreachable { attempts }`. -/
inductive RetryOutcome (α : Type) where
  | ok (val : α)
  | opFailed (code : Int)
  | nodeUnreachable (attempts : Nat)
  deriving DecidableEq, Repr

/-- Wrapping `u32` decrement, the semantics of `self.max_retries - 1` in a
release build (`with_retry` in `bitcoin.rs`). -/
def u32sub1 (n : Nat) : Nat :=
  (n % 2 ^ 32 + (2 ^ 32 - 1)) % 2 ^ 32

/-- The `Retry::spawn` loop of `with_retry`: attempt `i`, stop on success or
on a structured RPC error, retry on transport errors while delay budget
remains, otherwise report `nodeUnreachable maxR`.  Returns the outcome and
the total number of attempts performed. -/
def retryAux (f : Nat → RpcResult α) (maxR : Nat) :
    Nat → Nat → RetryOutcome α × Nat
  | 0, i =>
    (match f i with
     | RpcResult.ok v => (RetryOutcome.ok v, i + 1)
     | RpcResult.rpcErr c => (RetryOutcome.opFailed c, i + 1)
     | RpcResult.transportErr => (RetryOutcome.nodeUnreachable maxR, i + 1))
  | n + 1, i =>
    (match f i with
     | RpcResult.ok v => (RetryOutcome.ok v, i + 1)
     | RpcResult.rpcErr c => (RetryOutcome.opFailed c, i + 1)
     | RpcResult.transportErr => retryAux f maxR n (i + 1))

/-- `with_retry` of `bitcoin.rs`: the backoff strategy yields
`(max_retries - 1)` (wrapping `u32` subtraction) delays, so one initial
attempt plus that many retries. -/
def withRetry (f : Nat → RpcResult α) (maxR : Nat) : RetryOutcome α × Nat :=
  retryAux f maxR (u32sub1 maxR) 0

/-- Per-attempt operation of `is_tx_confirmed`: decode the transaction info
(confirmations compared to the threshold, missing field means false), treat
RPC error code `-5` (transaction not found) as unconfirmed, pass every other
error through. -/
def txOp (threshold : Nat) (client : Nat → RpcResult (Option Nat)) (i : Nat) :
    RpcResult Bool :=
  match client i with
  | RpcResult.ok info =>
    RpcResult.ok (match info with
      | some c => decide (threshold ≤ c)
      | none => false)
  | RpcResult.rpcErr c => if c = -5 then RpcResult.ok false else RpcResult.rpcErr c
  | RpcResult.transportErr => RpcResult.transportErr

/-- `is_tx_confirmed` of `bitcoin.rs` (after txid parsing), with the attempt
count made observable: the `i`-th call of the underlying
`get_raw_transaction_info` is `client i`. -/
def isTxConfirmed (threshold maxR : Nat) (client : Nat → RpcResult (Option Nat)) :
    RetryOutcome Bool × Nat :=
  withRetry (txOp threshold client) maxR

example :
    getSlotQuery [⟨"t", 100, "a", [1], [2], [3], 10, none, 0⟩] "a" [1] 10 =
      some ⟨"t", 100, "a", [1], [2], [3], 10, none, 0⟩ := by decide

example : sub64 5 10 = 2 ^ 64 - 5 := by decide

example : u32sub1 0 = 2 ^ 32 - 1 := by decide

example : u32sub1 5 = 4 := by decide

example :
    (isTxConfirmed 6 3 (fun i => if i = 2 then RpcResult.ok (some 7)
      else RpcResult.transportErr)) = (RetryOutcome.ok true, 3) := by decide

example :
    (isTxConfirmed 6 3 (fun _ => RpcResult.rpcErr (-5))) =
      (RetryOutcome.ok false, 1) := by decide

example :
    (isTxConfirmed 6 3 (fun _ => RpcResult.rpcErr 7)) =
      (RetryOutcome.opFailed 7, 1) := by decide

/-! ## Helper lemmas -/

/-- Key of a table row. -/
def rowKey (r : SlotRow) : String × List Nat := (r.contract_address, r.slot_index)

/-- Key of a request identifier. -/
def idKey (s : SlotId) : String × List Nat := (s.contract_address, s.slot_index)

/-- Key of a lock-request slot. -/
def slotKey (s : SlotData) : String × List Nat := (s.contract_address, s.slot_index)

/-- Key of an insert record. -/
def dataKey (s : SlotInsertData) : String × List Nat := (s.contract_address, s.slot_index)

/-- Weak precedence under `ORDER BY start_block, created_at DESC`. -/
def RowLE (a b : SlotRow) : Prop :=
  a.start_block < b.start_block ∨
    (a.start_block = b.start_block ∧ b.created_at ≤ a.created_at)

theorem betterRow_eq_false_iff {a b : SlotRow} : betterRow a b = false ↔ RowLE a b := by
  unfold betterRow RowLE
  rw [decide_eq_false_iff_not]
  omega

theorem rowLE_refl (a : SlotRow) : RowLE a a := by
  unfold RowLE; omega

theorem rowLE_trans {a b c : SlotRow} (h1 : RowLE a b) (h2 : RowLE b c) : RowLE a c := by
  unfold RowLE at *; omega

theorem betterRow_true_rowLE {a b : SlotRow} (h : betterRow a b = true) : RowLE b a := by
  unfold betterRow at h
  rw [decide_eq_true_eq] at h
  unfold RowLE; omega

theorem selMin_eq_none_iff {l : List SlotRow} : selMin l = none ↔ l = [] := by
  cases l with
  | nil => simp [selMin]
  | cons r rest =>
    simp only [selMin]
    cases h : selMin rest with
    | none => simp
    | some b => cases hb : betterRow r b <;> simp [hb]

theorem selMin_mem : ∀ {l : List SlotRow} {r : SlotRow}, selMin l = some r → r ∈ l := by
  intro l
  induction l with
  | nil => intro r h; simp [selMin] at h
  | cons x rest ih =>
    intro r h
    simp only [selMin] at h
    cases hr : selMin rest with
    | none =>
      rw [hr] at h
      simp at h
      subst h
      exact List.mem_cons_self x rest
    | some b =>
      rw [hr] at h
      cases hb : betterRow x b with
      | false =>
        simp [hb] at h
        subst h
        exact List.mem_cons_self x rest
      | true =>
        simp [hb] at h
        subst h
        exact List.mem_cons_of_mem x (ih hr)

theorem selMin_min : ∀ {l : List SlotRow} {r : SlotRow}, selMin l = some r →
    ∀ b ∈ l, RowLE r b := by
  intro l
  induction l with
  | nil => intro r h; simp [selMin] at h
  | cons x rest ih =>
    intro r h b hb
    simp only [selMin] at h
    cases hr : selMin rest with
    | none =>
      rw [hr] at h
      simp at h
      subst h
      rcases List.mem_cons.mp hb with h1 | h1
      · subst h1; exact rowLE_refl _
      · rw [selMin_eq_none_iff.mp hr] at h1; simp at h1
    | some best =>
      rw [hr] at h
      cases hbr : betterRow x best with
      | false =>
        simp [hbr] at h
        subst h
        rcases List.mem_cons.mp hb with h1 | h1
        · subst h1; exact rowLE_refl _
        · exact rowLE_trans (betterRow_eq_false_iff.mp hbr) (ih hr b h1)
      | true =>
        simp [hbr] at h
        subst h
        rcases List.mem_cons.mp hb with h1 | h1
        · subst h1; exact betterRow_true_rowLE hbr
        · exact ih hr b h1

theorem selMin_map {g : SlotRow → SlotRow}
    (h1 : ∀ r, (g r).start_block = r.start_block)
    (h2 : ∀ r, (g r).created_at = r.created_at) :
    ∀ (l : List SlotRow), selMin (l.map g) = (selMin l).map g := by
  intro l
  induction l with
  | nil => simp [selMin]
  | cons x rest ih =>
    simp only [List.map_cons, selMin, ih]
    have hbg : ∀ a b, betterRow (g a) (g b) = betterRow a b := by
      intro a b; unfold betterRow; rw [h1, h1, h2, h2]
    cases hr : selMin rest with
    | none => simp
    | some b => simp only [Option.map_some', hbg]; cases betterRow x b <;> simp

theorem mem_visibleRows {db : List SlotRow} {a : String} {i : List Nat} {h : Nat}
    {r : SlotRow} : r ∈ visibleRows db a i h ↔ r ∈ db ∧ Visible a i h r := by
  simp [visibleRows, List.mem_filter]

theorem visibleRows_eq_nil_iff {db : List SlotRow} {a : String} {i : List Nat}
    {h : Nat} : visibleRows db a i h = [] ↔ ∀ r ∈ db, ¬ Visible a i h r := by
  simp [visibleRows, List.filter_eq_nil_iff]

theorem getSlotQuery_isSome_iff {db : List SlotRow} {a : String} {i : List Nat}
    {h : Nat} : (getSlotQuery db a i h).isSome ↔ ∃ r ∈ db, Visible a i h r := by
  unfold getSlotQuery
  rw [Option.isSome_iff_ne_none]
  constructor
  · intro hne
    have : visibleRows db a i h ≠ [] := fun hnil => hne (selMin_eq_none_iff.mpr hnil)
    rcases List.exists_mem_of_ne_nil _ this with ⟨r, hr⟩
    exact ⟨r, (mem_visibleRows.mp hr).1, (mem_visibleRows.mp hr).2⟩
  · rintro ⟨r, hmem, hvis⟩ hnone
    have := selMin_eq_none_iff.mp hnone
    exact (visibleRows_eq_nil_iff.mp this r hmem) hvis

theorem getSlotQuery_eq_some_mem {db : List SlotRow} {a : String} {i : List Nat}
    {h : Nat} {r : SlotRow} (hq : getSlotQuery db a i h = some r) :
    r ∈ db ∧ Visible a i h r :=
  mem_visibleRows.mp (selMin_mem hq)

theorem getSlotQuery_min {db : List SlotRow} {a : String} {i : List Nat} {h : Nat}
    {r : SlotRow} (hq : getSlotQuery db a i h = some r) :
    ∀ b ∈ db, Visible a i h b → RowLE r b := by
  intro b hmem hvis
  exact selMin_min hq b (mem_visibleRows.mpr ⟨hmem, hvis⟩)

theorem batchGetVisible_eq_some_mem {db : List SlotRow} {a : String} {i : List Nat}
    {h : Nat} {r : SlotRow} (hq : batchGetVisible db a i h = some r) :
    r ∈ db ∧ Visible a i h r :=
  mem_visibleRows.mp (List.mem_of_getLast?_eq_some hq)

theorem batchGetVisible_isSome_iff {db : List SlotRow} {a : String} {i : List Nat}
    {h : Nat} : (batchGetVisible db a i h).isSome ↔ ∃ r ∈ db, Visible a i h r := by
  unfold batchGetVisible
  rw [List.getLast?_isSome]
  constructor
  · intro hne
    rcases List.exists_mem_of_ne_nil _ hne with ⟨r, hr⟩
    exact ⟨r, (mem_visibleRows.mp hr).1, (mem_visibleRows.mp hr).2⟩
  · rintro ⟨r, hmem, hvis⟩ hnil
    exact (visibleRows_eq_nil_iff.mp hnil r hmem) hvis

theorem closeFun_start (a : String) (i : List Nat) (e : Nat) (r : SlotRow) :
    (closeFun a i e r).start_block = r.start_block := by
  unfold closeFun; split <;> rfl

theorem closeFun_created (a : String) (i : List Nat) (e : Nat) (r : SlotRow) :
    (closeFun a i e r).created_at = r.created_at := by
  unfold closeFun; split <;> rfl

theorem visible_closeFun {a i e a' i'} {r : SlotRow} :
    Visible a' i' e (closeFun a i e r) ↔ Visible a' i' e r := by
  unfold closeFun
  by_cases hcond : r.contract_address = a ∧ r.slot_index = i ∧ r.end_block = none
  · rw [if_pos hcond]
    unfold Visible
    constructor
    · rintro ⟨h1, h2, h3, _⟩
      exact ⟨h1, h2, h3, Or.inl hcond.2.2⟩
    · rintro ⟨h1, h2, h3, _⟩
      exact ⟨h1, h2, h3, Or.inr rfl⟩
  · rw [if_neg hcond]

theorem visibleRows_unlock {db : List SlotRow} {a : String} {i : List Nat}
    {e : Nat} {a' : String} {i' : List Nat} :
    visibleRows (unlockSlotTx db a i e) a' i' e =
      (visibleRows db a' i' e).map (closeFun a i e) := by
  unfold unlockSlotTx visibleRows
  rw [List.filter_map]
  congr 1
  apply List.filter_congr
  intro r _
  simp [Function.comp, visible_closeFun]

theorem getSlotQuery_unlock {db : List SlotRow} {a : String} {i : List Nat}
    {e : Nat} {a' : String} {i' : List Nat} :
    getSlotQuery (unlockSlotTx db a i e) a' i' e =
      (getSlotQuery db a' i' e).map (closeFun a i e) := by
  unfold getSlotQuery
  rw [visibleRows_unlock, selMin_map (closeFun_start a i e) (closeFun_created a i e)]

theorem closeFun_active {a i e} {r : SlotRow}
    (h1 : r.contract_address = a) (h2 : r.slot_index = i) (h3 : r.end_block = none) :
    closeFun a i e r = { r with end_block := some e } := by
  unfold closeFun
  rw [if_pos ⟨h1, h2, h3⟩]

theorem activeCount_append (db l : List SlotRow) (a : String) (i : List Nat) :
    activeCount (db ++ l) a i = activeCount db a i + activeCount l a i := by
  unfold activeCount
  rw [List.filter_append, List.length_append]

theorem isSlotLocked_eq_false_iff {db : List SlotRow} {a : String} {i : List Nat} :
    isSlotLocked db a i = false ↔ activeCount db a i = 0 := by
  unfold isSlotLocked activeCount
  rw [List.length_eq_zero, List.filter_eq_nil_iff]
  rw [← Bool.not_eq_true, List.any_eq_true]
  push_neg
  constructor
  · intro h r hr
    simpa using h r hr
  · intro h r hr
    simpa using h r hr

theorem length_filter_le_one_of_pairwise {α : Type} {key : α → String × List Nat} :
    ∀ {l : List α}, l.Pairwise (fun x y => key x ≠ key y) →
    ∀ k, (l.filter (fun x => decide (key x = k))).length ≤ 1 := by
  intro l
  induction l with
  | nil => intro _ k; simp
  | cons x rest ih =>
    intro hp k
    rcases List.pairwise_cons.mp hp with ⟨hx, hrest⟩
    by_cases hk : key x = k
    · rw [List.filter_cons_of_pos (by simpa using hk)]
      have : rest.filter (fun y => decide (key y = k)) = [] := by
        rw [List.filter_eq_nil_iff]
        intro y hy
        simp only [decide_eq_true_eq]
        intro hyk
        exact hx y hy (hk ▸ hyk ▸ rfl)
      simp [this]
    · rw [List.filter_cons_of_neg (by simpa using hk)]
      exact ih hrest k

theorem retryAux_count_le {α : Type} (f : Nat → RpcResult α) (maxR : Nat) :
    ∀ n i, (retryAux f maxR n i).2 ≤ i + n + 1 := by
  intro n
  induction n with
  | zero =>
    intro i
    unfold retryAux
    cases f i <;> simp
  | succ m ih =>
    intro i
    unfold retryAux
    cases f i with
    | ok v => show i + 1 ≤ i + (m + 1) + 1; omega
    | transportErr =>
      show (retryAux f maxR m (i + 1)).2 ≤ i + (m + 1) + 1
      have := ih (i + 1)
      omega
    | rpcErr c => show i + 1 ≤ i + (m + 1) + 1; omega

theorem retryAux_retry_transport {α : Type} (f : Nat → RpcResult α) (maxR : Nat) :
    ∀ n i j, i ≤ j → j + 1 < (retryAux f maxR n i).2 → f j = RpcResult.transportErr := by
  intro n
  induction n with
  | zero =>
    intro i j hij hcount
    unfold retryAux at hcount
    cases hf : f i <;> rw [hf] at hcount <;> simp at hcount <;> omega
  | succ m ih =>
    intro i j hij hcount
    unfold retryAux at hcount
    cases hf : f i with
    | ok v => rw [hf] at hcount; simp at hcount; omega
    | transportErr =>
      rw [hf] at hcount
      rcases Nat.eq_or_lt_of_le hij with heq | hlt
      · exact heq ▸ hf
      · exact ih (i + 1) j hlt hcount
    | rpcErr c => rw [hf] at hcount; simp at hcount; omega

theorem retryAux_all_transport {α : Type} (f : Nat → RpcResult α) (maxR : Nat) :
    ∀ n i, (∀ j, i ≤ j → j < i + n + 1 → f j = RpcResult.transportErr) →
      retryAux f maxR n i = (RetryOutcome.nodeUnreachable maxR, i + n + 1) := by
  intro n
  induction n with
  | zero =>
    intro i hall
    unfold retryAux
    rw [hall i (Nat.le_refl i) (by omega)]
  | succ m ih =>
    intro i hall
    unfold retryAux
    rw [hall i (Nat.le_refl i) (by omega)]
    rw [ih (i + 1) (fun j h1 h2 => hall j (by omega) (by omega))]
    have harith : i + 1 + m + 1 = i + (m + 1) + 1 := by omega
    rw [harith]

theorem u32sub1_eq (m : Nat) (h1 : 1 ≤ m) (h2 : m < 2 ^ 32) : u32sub1 m = m - 1 := by
  unfold u32sub1
  rw [Nat.mod_eq_of_lt h2]
  have he : m + (2 ^ 32 - 1) = (m - 1) + 2 ^ 32 := by omega
  rw [he, Nat.add_mod_right]
  exact Nat.mod_eq_of_lt (by omega)

theorem collectConfirms_length {oracle : String → Except Unit Bool} :
    ∀ {l : List SlotRow} {cs : List Bool},
      collectConfirms oracle l = Except.ok cs → cs.length = l.length := by
  intro l
  induction l with
  | nil => intro cs h; simp [collectConfirms] at h; simp [← h]
  | cons r rest ih =>
    intro cs h
    unfold collectConfirms at h
    cases ho : oracle r.btc_txid with
    | error e => rw [ho] at h; simp at h
    | ok c =>
      rw [ho] at h
      cases hr : collectConfirms oracle rest with
      | error e => rw [hr] at h; simp at h
      | ok cs' =>
        rw [hr] at h
        simp at h
        rw [← h]
        simp [ih hr]

theorem collectConfirms_error_of_mem {oracle : String → Except Unit Bool}
    {r : SlotRow} :
    ∀ {l : List SlotRow}, r ∈ l → oracle r.btc_txid = Except.error () →
      collectConfirms oracle l = Except.error () := by
  intro l
  induction l with
  | nil => intro h; simp at h
  | cons x rest ih =>
    intro hmem herr
    unfold collectConfirms
    rcases List.mem_cons.mp hmem with h1 | h1
    · rw [← h1, herr]
    · cases ho : oracle x.btc_txid with
      | error e => cases e; rfl
      | ok c => rw [ih h1 herr]

/-- Key of a response. -/
def respKey (r : GetResp) : String × List Nat := (r.contract_address, r.slot_index)

theorem activeDecision_key (rt btc : Nat) (c : Bool) (r : SlotRow) :
    respKey (activeDecision rt btc c r) = rowKey r := by
  unfold activeDecision respKey rowKey
  split
  · split <;> rfl
  · rfl

theorem mkClosedResp_key (rt btc : Nat) (r : SlotRow) :
    respKey (mkClosedResp rt btc r) = rowKey r := rfl

theorem closedPartition_cons_none {db cur} {s : SlotId} {rest : List SlotId}
    (hf : batchGetVisible db s.contract_address s.slot_index cur = none) :
    closedPartition db cur (s :: rest) = closedPartition db cur rest := by
  simp [closedPartition, List.filterMap_cons, hf]

theorem activePartition_cons_none {db cur} {s : SlotId} {rest : List SlotId}
    (hf : batchGetVisible db s.contract_address s.slot_index cur = none) :
    activePartition db cur (s :: rest) = activePartition db cur rest := by
  simp [activePartition, List.filterMap_cons, hf]

theorem absentPartition_cons_none {db cur} {s : SlotId} {rest : List SlotId}
    (hf : batchGetVisible db s.contract_address s.slot_index cur = none) :
    absentPartition db cur (s :: rest) = s :: absentPartition db cur rest := by
  simp [absentPartition, List.filter_cons, hf]

theorem closedPartition_cons_closed {db cur} {s : SlotId} {rest : List SlotId}
    {r : SlotRow}
    (hf : batchGetVisible db s.contract_address s.slot_index cur = some r)
    (he : r.end_block.isSome = true) :
    closedPartition db cur (s :: rest) = r :: closedPartition db cur rest := by
  simp [closedPartition, List.filterMap_cons, hf, he]

theorem activePartition_cons_closed {db cur} {s : SlotId} {rest : List SlotId}
    {r : SlotRow}
    (hf : batchGetVisible db s.contract_address s.slot_index cur = some r)
    (he : r.end_block.isSome = true) :
    activePartition db cur (s :: rest) = activePartition db cur rest := by
  simp [activePartition, List.filterMap_cons, hf, he]

theorem closedPartition_cons_active {db cur} {s : SlotId} {rest : List SlotId}
    {r : SlotRow}
    (hf : batchGetVisible db s.contract_address s.slot_index cur = some r)
    (he : r.end_block.isSome = false) :
    closedPartition db cur (s :: rest) = closedPartition db cur rest := by
  simp [closedPartition, List.filterMap_cons, hf, he]

theorem activePartition_cons_active {db cur} {s : SlotId} {rest : List SlotId}
    {r : SlotRow}
    (hf : batchGetVisible db s.contract_address s.slot_index cur = some r)
    (he : r.end_block.isSome = false) :
    activePartition db cur (s :: rest) = r :: activePartition db cur rest := by
  simp [activePartition, List.filterMap_cons, hf, he]

theorem absentPartition_cons_some {db cur} {s : SlotId} {rest : List SlotId}
    {r : SlotRow}
    (hf : batchGetVisible db s.contract_address s.slot_index cur = some r) :
    absentPartition db cur (s :: rest) = absentPartition db cur rest := by
  simp [absentPartition, List.filter_cons, hf]

theorem batchGetVisible_key {db : List SlotRow} {a : String} {i : List Nat}
    {h : Nat} {r : SlotRow} (hq : batchGetVisible db a i h = some r) :
    rowKey r = (a, i) := by
  rcases batchGetVisible_eq_some_mem hq with ⟨_, hvis⟩
  unfold rowKey
  rw [hvis.1, hvis.2.1]

theorem partition_keys_perm (db : List SlotRow) (cur : Nat) :
    ∀ slots : List SlotId,
      ((closedPartition db cur slots).map rowKey ++
        ((activePartition db cur slots).map rowKey ++
          (absentPartition db cur slots).map idKey)).Perm (slots.map idKey) := by
  intro slots
  induction slots with
  | nil => simp [closedPartition, activePartition, absentPartition]
  | cons s rest ih =>
    cases hf : batchGetVisible db s.contract_address s.slot_index cur with
    | none =>
      rw [closedPartition_cons_none hf, activePartition_cons_none hf,
        absentPartition_cons_none hf, List.map_cons, List.map_cons]
      exact ((List.Perm.append_left _ List.perm_middle).trans List.perm_middle).trans
        (ih.cons _)
    | some r =>
      have hkey : rowKey r = idKey s := batchGetVisible_key hf
      cases he : r.end_block.isSome with
      | true =>
        rw [closedPartition_cons_closed hf he, activePartition_cons_closed hf he,
          absentPartition_cons_some hf, List.map_cons, List.map_cons,
          List.cons_append, hkey]
        exact ih.cons _
      | false =>
        rw [closedPartition_cons_active hf he, activePartition_cons_active hf he,
          absentPartition_cons_some hf, List.map_cons, List.map_cons,
          List.cons_append, hkey]
        exact (List.perm_middle).trans (ih.cons _)

theorem batchGetSlotStatus_error {rt : Nat} {oracle : String → Except Unit Bool}
    {db : List SlotRow} {cur btc : Nat} {slots : List SlotId}
    (hcc : collectConfirms oracle (activePartition db cur slots) = Except.error ()) :
    batchGetSlotStatus rt oracle db cur btc slots = (Except.error (), db) := by
  unfold batchGetSlotStatus
  simp only [hcc]

theorem batchGetSlotStatus_ok {rt : Nat} {oracle : String → Except Unit Bool}
    {db : List SlotRow} {cur btc : Nat} {slots : List SlotId} {confirms : List Bool}
    (hcc : collectConfirms oracle (activePartition db cur slots) = Except.ok confirms) :
    batchGetSlotStatus rt oracle db cur btc slots =
      (Except.ok ((closedPartition db cur slots).map (mkClosedResp rt btc) ++
        ((activePartition db cur slots).zip confirms).map
            (fun p => activeDecision rt btc p.2 p.1) ++
          (absentPartition db cur slots).map (fun s =>
            (⟨GetStatus.Unlocked, s.contract_address, s.slot_index, [], []⟩ : GetResp))),
       batchUnlockSlots db (((activePartition db cur slots).zip confirms).filterMap
          (fun p => if sub64 btc p.1.btc_block > rt ∨ p.2 = true then
            some (p.1.contract_address, p.1.slot_index, cur) else none))) := by
  unfold batchGetSlotStatus
  simp only [hcc]

theorem txOp_transport_iff (threshold : Nat) (client : Nat → RpcResult (Option Nat))
    (j : Nat) :
    txOp threshold client j = RpcResult.transportErr ↔
      client j = RpcResult.transportErr := by
  unfold txOp
  cases client j with
  | ok v => simp
  | transportErr => simp
  | rpcErr c => by_cases hc : c = -5 <;> simp [hc]

theorem batchUnlockSlots_nil (db : List SlotRow) : batchUnlockSlots db [] = db := rfl

theorem batchUnlockSlots_singleton (db : List SlotRow) (a : String) (i : List Nat)
    (e : Nat) : batchUnlockSlots db [(a, i, e)] = unlockSlotTx db a i e := by
  unfold batchUnlockSlots unlockSlotTx
  apply List.map_congr_left
  intro r _
  unfold closeFun
  by_cases hc : r.contract_address = a ∧ r.slot_index = i ∧ r.end_block = none
  · rw [if_pos (by simp [List.any_cons]; tauto), if_pos hc]
  · rw [if_neg (by simp [List.any_cons]; tauto), if_neg hc]

/-! ## Claims -/

/-- C5: the visibility queries (`get_slot` / `batch_get_locked_slots`) return
a row for a key at height `h` if and only if a row exists for that key with
`start_block ≤ h` and (`end_block` NULL or `end_block = h`); the batch query
answers position `j` from the key at position `j` of the request. -/
theorem c5_temporal_visibility (db : List SlotRow) (h : Nat) :
    (∀ a i, (getSlotQuery db a i h).isSome ↔
      ∃ r ∈ db, r.contract_address = a ∧ r.slot_index = i ∧ r.start_block ≤ h ∧
        (r.end_block = none ∨ r.end_block = some h)) ∧
    (∀ keys : List SlotId, ∀ j : Nat, (batchGetLockedSlots db keys h).get? j =
      (keys.get? j).map (fun k => batchGetVisible db k.contract_address k.slot_index h)) ∧
    (∀ a i, (batchGetVisible db a i h).isSome ↔
      ∃ r ∈ db, r.contract_address = a ∧ r.slot_index = i ∧ r.start_block ≤ h ∧
        (r.end_block = none ∨ r.end_block = some h)) := by
  refine ⟨fun a i => ?_, fun keys j => ?_, fun a i => ?_⟩
  · exact getSlotQuery_isSome_iff
  · unfold batchGetLockedSlots
    exact List.get?_map _ _ _
  · exact batchGetVisible_isSome_iff

/-- Row used in the C6 scenario: closed at block 10, earliest start. -/
def c6row1 : SlotRow := ⟨"t1", 100, "k", [6], [1], [2], 5, some 10, 0⟩

/-- Row used in the C6 scenario: active, greatest start, created later. -/
def c6row2 : SlotRow := ⟨"t2", 100, "k", [6], [3], [4], 7, none, 1⟩

/-- Table used in the C6 scenario. -/
def c6db : List SlotRow := [c6row1, c6row2]

/-- C6 fails on the code: with two qualifying rows (starts 5 and 7), the
source query (`ORDER BY start_block, created_at DESC LIMIT 1`, ascending
`start_block`) returns the row with start 5 even though a visible row with
the strictly greater start 7 exists — not the greatest `start_block`. -/
theorem c6_counterexample :
    getSlotQuery c6db "k" [6] 10 = some c6row1 ∧
    (c6row2 ∈ c6db ∧ Visible "k" [6] 10 c6row2) ∧
    c6row1.start_block = 5 ∧ c6row2.start_block = 7 := by
  refine ⟨by decide, by decide, rfl, rfl⟩

/-- C6 (amended): when multiple rows for the key are visible at height `h`,
`get_slot` returns a visible row with the LEAST `start_block`, breaking ties
by most recent creation. -/
theorem c6_least_start (db : List SlotRow) (a : String) (i : List Nat) (h : Nat)
    (r : SlotRow) (hq : getSlotQuery db a i h = some r) :
    (r ∈ db ∧ Visible a i h r) ∧
    ∀ b ∈ db, Visible a i h b →
      r.start_block ≤ b.start_block ∧
        (b.start_block = r.start_block → b.created_at ≤ r.created_at) := by
  refine ⟨getSlotQuery_eq_some_mem hq, fun b hmem hvis => ?_⟩
  have hle := getSlotQuery_min hq b hmem hvis
  unfold RowLE at hle
  omega

/-- Witness for `c6_least_start` at the concrete C6 table. -/
theorem c6_least_start_witness :
    (c6row1 ∈ c6db ∧ Visible "k" [6] 10 c6row1) ∧
    ∀ b ∈ c6db, Visible "k" [6] 10 b →
      c6row1.start_block ≤ b.start_block ∧
        (b.start_block = c6row1.start_block → b.created_at ≤ c6row1.created_at) :=
  c6_least_start c6db "k" [6] 10 c6row1 (by decide)

/-- Row used in the C7 scenario: active, stored Bitcoin height 10. -/
def c7row : SlotRow := ⟨"t7", 10, "c7", [7], [9, 9], [8, 8], 0, none, 0⟩

/-- C7 fails on the code: with a caller-supplied `btc_block = 5` below the
stored `btc_block = 10`, the `u64` subtraction wraps to `2^64 - 5` (it is not
clamped to 0), and the slot IS spuriously reverted. -/
theorem c7_counterexample :
    sub64 5 10 = 2 ^ 64 - 5 ∧ sub64 5 10 ≠ 0 ∧
    (getSlotStatus 6 (fun _ => Except.ok false) [c7row] "c7" [7] 0 5).1 =
      Except.ok ⟨GetStatus.Reverted, "c7", [7], [9, 9], [8, 8]⟩ := by
  refine ⟨by decide, by decide, by decide⟩

/-- C7 (amended): the block delta is computed by WRAPPING `u64` subtraction;
whenever the caller-supplied `btc_block` is below the visible active row's
stored `btc_block`, the delta equals `2^64 - (row.btc_block - btc_block)`,
and as soon as that huge value exceeds `revert_threshold` the slot is
reverted (the delta is not clamped to 0). -/
theorem c7_wrapping_subtraction (rt : Nat) (oracle : String → Except Unit Bool)
    (db : List SlotRow) (a : String) (i : List Nat) (cur btc : Nat) (r : SlotRow)
    (c : Bool) (hq : getSlotQuery db a i cur = some r) (hend : r.end_block = none)
    (ho : oracle r.btc_txid = Except.ok c) (hlt : btc < r.btc_block)
    (hb : r.btc_block < 2 ^ 64) (hrt : rt < 2 ^ 64 - (r.btc_block - btc)) :
    sub64 btc r.btc_block = 2 ^ 64 - (r.btc_block - btc) ∧
    getSlotStatus rt oracle db a i cur btc =
      (Except.ok ⟨GetStatus.Reverted, a, i, r.revert_value, r.current_value⟩,
       unlockSlotTx db a i cur) := by
  have hsub : sub64 btc r.btc_block = 2 ^ 64 - (r.btc_block - btc) := by
    unfold sub64
    rw [Nat.mod_eq_of_lt (show btc < 2 ^ 64 by omega), Nat.mod_eq_of_lt hb,
      Nat.mod_eq_of_lt (show btc + (2 ^ 64 - r.btc_block) < 2 ^ 64 by omega)]
    omega
  refine ⟨hsub, ?_⟩
  unfold getSlotStatus
  simp only [hq, hend, Option.isSome_none, Bool.false_eq_true, if_false, ho]
  rw [if_pos (by omega : sub64 btc r.btc_block > rt)]

/-- Witness for `c7_wrapping_subtraction` at the concrete C7 scenario. -/
theorem c7_wrapping_subtraction_witness :
    sub64 5 c7row.btc_block = 2 ^ 64 - (c7row.btc_block - 5) ∧
    getSlotStatus 6 (fun _ => Except.ok false) [c7row] "c7" [7] 0 5 =
      (Except.ok ⟨GetStatus.Reverted, "c7", [7], c7row.revert_value,
        c7row.current_value⟩,
       unlockSlotTx [c7row] "c7" [7] 0) :=
  c7_wrapping_subtraction 6 (fun _ => Except.ok false) [c7row] "c7" [7] 0 5 c7row
    false (by decide) (by decide) rfl (by decide) (by decide) (by decide)

/-- C8: oracle isolation — whenever the oracle fails during `get_slot_status`
(on the visible active row's txid) or during `batch_get_slot_status` (on any
active-partition row's txid), the request fails and the table is returned
exactly as it was: all mutation happens in a transaction entered only after
every oracle call succeeded. -/
theorem c8_oracle_isolation (rt : Nat) (oracle : String → Except Unit Bool)
    (db : List SlotRow) (cur btc : Nat) :
    (∀ a i r, getSlotQuery db a i cur = some r → r.end_block = none →
      oracle r.btc_txid = Except.error () →
      getSlotStatus rt oracle db a i cur btc = (Except.error (), db)) ∧
    (∀ slots : List SlotId,
      (∃ r ∈ activePartition db cur slots, oracle r.btc_txid = Except.error ()) →
      batchGetSlotStatus rt oracle db cur btc slots = (Except.error (), db)) := by
  constructor
  · intro a i r hq hend ho
    unfold getSlotStatus
    simp only [hq, hend, Option.isSome_none, Bool.false_eq_true, if_false, ho]
  · rintro slots ⟨r, hmem, ho⟩
    exact batchGetSlotStatus_error (collectConfirms_error_of_mem hmem ho)

/-- Row used in the C8 witness: an active row whose txid the oracle rejects. -/
def c8row : SlotRow := ⟨"t8", 100, "c8", [8], [1], [2], 0, none, 0⟩

/-- Witness for `c8_oracle_isolation` at a concrete table and failing oracle. -/
theorem c8_oracle_isolation_witness :
    getSlotStatus 6 (fun _ => Except.error ()) [c8row] "c8" [8] 0 100 =
      (Except.error (), [c8row]) ∧
    batchGetSlotStatus 6 (fun _ => Except.error ()) [c8row] 0 100 [⟨"c8", [8]⟩] =
      (Except.error (), [c8row]) := by
  constructor
  · exact (c8_oracle_isolation 6 (fun _ => Except.error ()) [c8row] 0 100).1
      "c8" [8] c8row (by decide) rfl rfl
  · exact (c8_oracle_isolation 6 (fun _ => Except.error ()) [c8row] 0 100).2
      [⟨"c8", [8]⟩] ⟨c8row, by decide, rfl⟩

/-- C4: revert precedence — for an active row with both
`block_delta > revert_threshold` and a confirmed transaction, the response is
`Reverted`, not `Unlocked`: `get_slot_status` checks the delta before the
confirmation flag, and the per-row decision of `batch_get_slot_status`
produces `Reverted` at that row's response position whatever the
confirmation flag says. -/
theorem c4_revert_precedence (rt : Nat) (oracle : String → Except Unit Bool)
    (db : List SlotRow) (cur btc : Nat) :
    (∀ a i r, getSlotQuery db a i cur = some r → r.end_block = none →
      sub64 btc r.btc_block > rt → oracle r.btc_txid = Except.ok true →
      (getSlotStatus rt oracle db a i cur btc).1 =
        Except.ok ⟨GetStatus.Reverted, a, i, r.revert_value, r.current_value⟩) ∧
    (∀ (slots : List SlotId) (confirms : List Bool) (j : Nat) (r : SlotRow) (c : Bool),
      collectConfirms oracle (activePartition db cur slots) = Except.ok confirms →
      (activePartition db cur slots)[j]? = some r →
      confirms[j]? = some c →
      sub64 btc r.btc_block > rt →
      ∃ resps, (batchGetSlotStatus rt oracle db cur btc slots).1 = Except.ok resps ∧
        resps[(closedPartition db cur slots).length + j]? =
          some (activeDecision rt btc c r) ∧
        (activeDecision rt btc c r).status = GetStatus.Reverted) := by
  constructor
  · intro a i r hq hend hd ho
    unfold getSlotStatus
    simp only [hq, hend, Option.isSome_none, Bool.false_eq_true, if_false, ho]
    rw [if_pos hd]
  · intro slots confirms j r c hcc hj hc hd
    have heq := @batchGetSlotStatus_ok rt _ _ _ btc _ _ hcc
    have hlen : confirms.length = (activePartition db cur slots).length :=
      collectConfirms_length hcc
    have hjlt : j < (activePartition db cur slots).length := by
      rcases List.getElem?_eq_some_iff.mp hj with ⟨hh, _⟩
      exact hh
    have hziplen : (((activePartition db cur slots).zip confirms).map
        (fun p => activeDecision rt btc p.2 p.1)).length =
        (activePartition db cur slots).length := by
      rw [List.length_map, List.length_zip, hlen, Nat.min_self]
    have hinitlen : ((closedPartition db cur slots).map (mkClosedResp rt btc)).length =
        (closedPartition db cur slots).length := List.length_map _ _
    refine ⟨_, by rw [heq], ?_, ?_⟩
    · rw [List.getElem?_append_left (by rw [List.length_append, hinitlen, hziplen]; omega),
        List.getElem?_append_right (by rw [hinitlen]; omega)]
      rw [hinitlen]
      have hidx : (closedPartition db cur slots).length + j -
          (closedPartition db cur slots).length = j := by omega
      rw [hidx, List.getElem?_map]
      have hzip : ((activePartition db cur slots).zip confirms)[j]? = some (r, c) :=
        List.getElem?_zip_eq_some.mpr ⟨hj, hc⟩
      rw [hzip]
      rfl
    · unfold activeDecision
      rw [if_pos (Or.inl hd), if_pos hd]

/-- Row used in the C4 witness. -/
def c4row : SlotRow := ⟨"t4", 100, "c4", [4], [1, 1], [2, 2], 0, none, 0⟩

/-- Witness for `c4_revert_precedence`: delta 10 > threshold 6 with a
confirming oracle still yields `Reverted`. -/
theorem c4_revert_precedence_witness :
    ((getSlotStatus 6 (fun _ => Except.ok true) [c4row] "c4" [4] 0 110).1 =
      Except.ok ⟨GetStatus.Reverted, "c4", [4], c4row.revert_value,
        c4row.current_value⟩) ∧
    (∃ resps, (batchGetSlotStatus 6 (fun _ => Except.ok true) [c4row] 0 110
        [⟨"c4", [4]⟩]).1 = Except.ok resps ∧
      resps[(closedPartition [c4row] 0 [⟨"c4", [4]⟩]).length + 0]? =
        some (activeDecision 6 110 true c4row) ∧
      (activeDecision 6 110 true c4row).status = GetStatus.Reverted) := by
  constructor
  · exact (c4_revert_precedence 6 (fun _ => Except.ok true) [c4row] 0 110).1 "c4" [4]
      c4row (by decide) rfl (by decide) rfl
  · exact (c4_revert_precedence 6 (fun _ => Except.ok true) [c4row] 0 110).2
      [⟨"c4", [4]⟩] [true] 0 c4row true (by decide) (by decide) rfl (by decide)

/-- C3 (amended): after any `get_slot_status` call that answered `Reverted`,
repeating the identical call returns `Reverted` again and does not mutate
state — but with EMPTY `revert_value` and `current_value` (the historical
path of the source returns `Vec::new()` for both). -/
theorem c3_repeat_after_close (rt : Nat) (oracle : String → Except Unit Bool)
    (db : List SlotRow) (a : String) (i : List Nat) (cur btc : Nat) (resp : GetResp)
    (hok : (getSlotStatus rt oracle db a i cur btc).1 = Except.ok resp)
    (hrev : resp.status = GetStatus.Reverted) :
    getSlotStatus rt oracle (getSlotStatus rt oracle db a i cur btc).2 a i cur btc =
      (Except.ok ⟨GetStatus.Reverted, a, i, [], []⟩,
       (getSlotStatus rt oracle db a i cur btc).2) := by
  cases hq : getSlotQuery db a i cur with
  | none =>
    exfalso
    unfold getSlotStatus at hok
    rw [hq] at hok
    simp at hok
    rw [← hok] at hrev
    simp at hrev
  | some r =>
    cases hend : r.end_block with
    | some eb =>
      have hfst : getSlotStatus rt oracle db a i cur btc =
          (Except.ok ⟨if sub64 btc r.btc_block > rt then GetStatus.Reverted else
            GetStatus.Unlocked, a, i, [], []⟩, db) := by
        unfold getSlotStatus
        rw [hq]
        simp [hend]
      by_cases hd : sub64 btc r.btc_block > rt
      · rw [hfst, hfst, if_pos hd]
      · exfalso
        rw [hfst] at hok
        simp at hok
        rw [← hok, if_neg hd] at hrev
        simp at hrev
    | none =>
      cases ho : oracle r.btc_txid with
      | error e =>
        exfalso
        unfold getSlotStatus at hok
        rw [hq] at hok
        simp [hend, ho] at hok
      | ok c =>
        by_cases hd : sub64 btc r.btc_block > rt
        · have hfst : getSlotStatus rt oracle db a i cur btc =
              (Except.ok ⟨GetStatus.Reverted, a, i, r.revert_value, r.current_value⟩,
               unlockSlotTx db a i cur) := by
            unfold getSlotStatus
            rw [hq]
            simp [hend, ho, hd]
          rw [hfst]
          have hkey := (getSlotQuery_eq_some_mem hq).2
          have hq2 : getSlotQuery (unlockSlotTx db a i cur) a i cur =
              some ({ r with end_block := some cur }) := by
            rw [getSlotQuery_unlock, hq]
            simp [closeFun_active hkey.1 hkey.2.1 hend]
          unfold getSlotStatus
          rw [hq2]
          simp [hd]
        · exfalso
          unfold getSlotStatus at hok
          rw [hq] at hok
          cases c with
          | true =>
            simp [hend, ho, hd] at hok
            rw [← hok] at hrev
            simp at hrev
          | false =>
            simp [hend, ho, hd] at hok
            rw [← hok] at hrev
            simp at hrev

/-- Row used in the C3 scenario: active lock at Bitcoin height 100. -/
def c3row : SlotRow := ⟨"t3", 100, "c3", [3], [4, 5, 6], [7, 8, 9], 1000, none, 0⟩

/-- C3 fails on the code: the first call reverts and returns the stored
values; the repeated identical call still answers `Reverted` but with EMPTY
`revert_value`/`current_value` (the historical-closed path of
`get_slot_status` returns `Vec::new()`), so the responses are not the same. -/
theorem c3_counterexample :
    ((getSlotStatus 6 (fun _ => Except.ok false) [c3row] "c3" [3] 1000 110).1 =
      Except.ok ⟨GetStatus.Reverted, "c3", [3], [4, 5, 6], [7, 8, 9]⟩) ∧
    ((getSlotStatus 6 (fun _ => Except.ok false)
        (getSlotStatus 6 (fun _ => Except.ok false) [c3row] "c3" [3] 1000 110).2
        "c3" [3] 1000 110).1 =
      Except.ok ⟨GetStatus.Reverted, "c3", [3], [], []⟩) ∧
    ([4, 5, 6] : List Nat) ≠ [] := by
  refine ⟨by decide, by decide, by decide⟩

/-- Witness for `c3_repeat_after_close` at the concrete C3 scenario. -/
theorem c3_repeat_after_close_witness :
    getSlotStatus 6 (fun _ => Except.ok false)
        (getSlotStatus 6 (fun _ => Except.ok false) [c3row] "c3" [3] 1000 110).2
        "c3" [3] 1000 110 =
      (Except.ok ⟨GetStatus.Reverted, "c3", [3], [], []⟩,
       (getSlotStatus 6 (fun _ => Except.ok false) [c3row] "c3" [3] 1000 110).2) :=
  c3_repeat_after_close 6 (fun _ => Except.ok false) [c3row] "c3" [3] 1000 110
    ⟨GetStatus.Reverted, "c3", [3], [4, 5, 6], [7, 8, 9]⟩ (by decide) rfl

/-- Row used in the C2 scenario: a historical row closed at block 10. -/
def c2row : SlotRow := ⟨"t2", 100, "b", [2], [5], [6], 1, some 10, 0⟩

/-- C2 fails on the code: with request keys `[("a",[1]), ("b",[2])]` where
`"a"` is absent and `"b"` has a historical-closed row, the response array is
`[("b",...), ("a",...)]` — `batch_get_slot_status` assembles closed-partition
responses first, then active, then absent, so `output[0]` does not correspond
to `input[0]`. -/
theorem c2_counterexample :
    (batchGetSlotStatus 6 (fun _ => Except.ok false) [c2row] 10 100
        [⟨"a", [1]⟩, ⟨"b", [2]⟩]).1 =
      Except.ok [⟨GetStatus.Unlocked, "b", [2], [], []⟩,
        ⟨GetStatus.Unlocked, "a", [1], [], []⟩] ∧
    ("b" : String) ≠ "a" := by
  refine ⟨by decide, by decide⟩

/-- C2 (amended): a successful `batch_get_slot_status` response has exactly
one element per request element and its `(contract_address, slot_index)`
keys are a permutation of the request keys — grouped historical-closed
first, then active, then absent, each group in input order — but positional
correspondence `output[i] ~ input[i]` does not hold in general. -/
theorem c2_batch_keys_perm (rt : Nat) (oracle : String → Except Unit Bool)
    (db : List SlotRow) (cur btc : Nat) (slots : List SlotId) (resps : List GetResp)
    (hok : (batchGetSlotStatus rt oracle db cur btc slots).1 = Except.ok resps) :
    resps.length = slots.length ∧
    (resps.map respKey).Perm (slots.map idKey) := by
  cases hcc : collectConfirms oracle (activePartition db cur slots) with
  | error e =>
    exfalso
    cases e
    rw [batchGetSlotStatus_error hcc] at hok
    simp at hok
  | ok confirms =>
    have heq := @batchGetSlotStatus_ok rt _ _ _ btc _ _ hcc
    rw [heq] at hok
    simp only [Except.ok.injEq] at hok
    subst hok
    have hlen : confirms.length = (activePartition db cur slots).length :=
      collectConfirms_length hcc
    have h2 : (((activePartition db cur slots).zip confirms).map
        (fun p => activeDecision rt btc p.2 p.1)).map respKey =
        (activePartition db cur slots).map rowKey := by
      rw [List.map_map]
      have ha : (respKey ∘ fun p : SlotRow × Bool => activeDecision rt btc p.2 p.1) =
          (fun p : SlotRow × Bool => rowKey p.1) :=
        funext fun p => activeDecision_key rt btc p.2 p.1
      rw [ha]
      have hb : (fun p : SlotRow × Bool => rowKey p.1) = rowKey ∘ Prod.fst := rfl
      rw [hb, ← List.map_map, List.map_fst_zip _ _ (by omega)]
    have hmap : (((closedPartition db cur slots).map (mkClosedResp rt btc) ++
        ((activePartition db cur slots).zip confirms).map
          (fun p => activeDecision rt btc p.2 p.1) ++
        (absentPartition db cur slots).map (fun s =>
          (⟨GetStatus.Unlocked, s.contract_address, s.slot_index, [], []⟩ :
            GetResp))).map respKey) =
        (closedPartition db cur slots).map rowKey ++
          ((activePartition db cur slots).map rowKey ++
            (absentPartition db cur slots).map idKey) := by
      have h1 : ((closedPartition db cur slots).map (mkClosedResp rt btc)).map respKey =
          (closedPartition db cur slots).map rowKey := by
        rw [List.map_map]
        apply List.map_congr_left
        intro r _
        exact mkClosedResp_key rt btc r
      have h3 : ((absentPartition db cur slots).map (fun s =>
          (⟨GetStatus.Unlocked, s.contract_address, s.slot_index, [], []⟩ :
            GetResp))).map respKey = (absentPartition db cur slots).map idKey := by
        rw [List.map_map]
        apply List.map_congr_left
        intro s _
        rfl
      rw [List.map_append, List.map_append, List.append_assoc, h1, h2, h3]
    have hperm2 := (hmap ▸ partition_keys_perm db cur slots :
      ((((closedPartition db cur slots).map (mkClosedResp rt btc) ++
        ((activePartition db cur slots).zip confirms).map
          (fun p => activeDecision rt btc p.2 p.1) ++
        (absentPartition db cur slots).map (fun s =>
          (⟨GetStatus.Unlocked, s.contract_address, s.slot_index, [], []⟩ :
            GetResp))).map respKey)).Perm (slots.map idKey))
    refine ⟨?_, hperm2⟩
    have hl := hperm2.length_eq
    simpa using hl

/-- Witness for `c2_batch_keys_perm` at the concrete C2 scenario. -/
theorem c2_batch_keys_perm_witness :
    ([⟨GetStatus.Unlocked, "b", [2], [], []⟩,
      ⟨GetStatus.Unlocked, "a", [1], [], []⟩] : List GetResp).length =
      ([⟨"a", [1]⟩, ⟨"b", [2]⟩] : List SlotId).length ∧
    (([⟨GetStatus.Unlocked, "b", [2], [], []⟩,
      ⟨GetStatus.Unlocked, "a", [1], [], []⟩] : List GetResp).map respKey).Perm
      (([⟨"a", [1]⟩, ⟨"b", [2]⟩] : List SlotId).map idKey) :=
  c2_batch_keys_perm 6 (fun _ => Except.ok false) [c2row] 10 100
    [⟨"a", [1]⟩, ⟨"b", [2]⟩]
    [⟨GetStatus.Unlocked, "b", [2], [], []⟩, ⟨GetStatus.Unlocked, "a", [1], [], []⟩]
    (by decide)

/-- Slot used in the C1 counterexample (duplicated in one batch request). -/
def c1slot : SlotData := ⟨"a", [1], [2], [3], "t"⟩

/-- Second slot of the C1 witness (distinct key). -/
def c1slotB : SlotData := ⟨"b", [9], [2], [3], "t"⟩

/-- C1 fails on the code: one `batch_lock_slot` request containing the same
key twice inserts TWO active rows for that key — `batch_insert_slot_locks`
runs all its `is_slot_locked` checks against the pre-insert table before
issuing the single multi-value INSERT. -/
theorem c1_counterexample :
    activeCount (batchLockSlot [] 5 9 0 [c1slot, c1slot]).2 "a" [1] = 2 ∧
    ¬ SingleActiveInv (batchLockSlot [] 5 9 0 [c1slot, c1slot]).2 := by
  refine ⟨by decide, fun h => absurd (h "a" [1]) (by decide)⟩

/-- C1 (amended): `batch_lock_slot` preserves the single-active-row invariant
whenever the request's keys are pairwise distinct.  In particular an existing
active row with `start_block` above `locked_at_block` is harmless: it is
invisible to the `batch_get_locked_slots` pre-check, but the unfiltered
`is_slot_locked` re-check inside `batch_insert_slot_locks` silently drops
that insert.  With duplicate keys in one request the invariant can be
violated. -/
theorem c1_batch_lock_preserves_inv (db : List SlotRow) (lockedAt btcBlock now : Nat)
    (slots : List SlotData) (hinv : SingleActiveInv db)
    (hdistinct : slots.Pairwise (fun x y => slotKey x ≠ slotKey y)) :
    SingleActiveInv (batchLockSlot db lockedAt btcBlock now slots).2 := by
  intro a i
  have hdb2 : (batchLockSlot db lockedAt btcBlock now slots).2 =
      db ++ (((slots.filter (fun s =>
          !(batchGetVisible db s.contract_address s.slot_index lockedAt).isSome)).map
        (mkInsertData lockedAt btcBlock)).filter
          (fun s => !(isSlotLocked db s.contract_address s.slot_index))).map
        (toRow now) := rfl
  rw [hdb2, activeCount_append]
  set newData := ((slots.filter (fun s =>
      !(batchGetVisible db s.contract_address s.slot_index lockedAt).isSome)).map
    (mkInsertData lockedAt btcBlock)).filter
      (fun s => !(isSlotLocked db s.contract_address s.slot_index)) with hnd
  have hcount_map : activeCount (newData.map (toRow now)) a i =
      (newData.filter (fun s => decide (dataKey s = (a, i)))).length := by
    unfold activeCount
    rw [List.filter_map, List.length_map]
    congr 1
    apply List.filter_congr
    intro s _
    simp [toRow, dataKey, Prod.ext_iff, Function.comp]
  have hpair0 : (slots.filter (fun s => !(batchGetVisible db s.contract_address
      s.slot_index lockedAt).isSome)).Pairwise (fun x y => slotKey x ≠ slotKey y) :=
    List.Pairwise.sublist (List.filter_sublist _) hdistinct
  have hpair1 : ((slots.filter (fun s => !(batchGetVisible db s.contract_address
      s.slot_index lockedAt).isSome)).map (mkInsertData lockedAt btcBlock)).Pairwise
      (fun x y => dataKey x ≠ dataKey y) := by
    rw [List.pairwise_map]
    exact hpair0
  have hpair : newData.Pairwise (fun x y => dataKey x ≠ dataKey y) :=
    List.Pairwise.sublist (List.filter_sublist _) hpair1
  have hle1 := length_filter_le_one_of_pairwise hpair (a, i)
  rw [hcount_map]
  by_cases hz : (newData.filter (fun s => decide (dataKey s = (a, i)))).length = 0
  · rw [hz]
    have := hinv a i
    omega
  · have hne : newData.filter (fun s => decide (dataKey s = (a, i))) ≠ [] := by
      intro hnil
      rw [hnil] at hz
      simp at hz
    rcases List.exists_mem_of_ne_nil _ hne with ⟨s, hsmem⟩
    have hskey : dataKey s = (a, i) := by
      have := List.of_mem_filter hsmem
      simpa using this
    have hsin : s ∈ newData := List.mem_of_mem_filter hsmem
    have hsp : isSlotLocked db s.contract_address s.slot_index = false := by
      rw [hnd] at hsin
      have := List.of_mem_filter hsin
      simpa using this
    have hkey2 : s.contract_address = a ∧ s.slot_index = i := by
      unfold dataKey at hskey
      exact ⟨congrArg Prod.fst hskey, congrArg Prod.snd hskey⟩
    have hdb0 : activeCount db a i = 0 := by
      rw [← hkey2.1, ← hkey2.2]
      exact isSlotLocked_eq_false_iff.mp hsp
    rw [hdb0]
    omega

/-- Witness for `c1_batch_lock_preserves_inv` on a two-key batch with
distinct keys over the empty table. -/
theorem c1_batch_lock_preserves_inv_witness :
    SingleActiveInv (batchLockSlot [] 5 9 0 [c1slot, c1slotB]).2 :=
  c1_batch_lock_preserves_inv [] 5 9 0 [c1slot, c1slotB]
    (fun a i => by simp [activeCount]) (by decide)

/-- C9 fails on the code at `max_retries = 0`: `with_retry` computes
`max_retries - 1` on `u32`, which wraps to `2^32 - 1` backoff delays, so a
single call against an unreachable node performs `2^32` attempts — not at
most `0` — before reporting `nodeUnreachable` with `attempts = 0`. -/
theorem c9_counterexample :
    isTxConfirmed 6 0 (fun _ => RpcResult.transportErr) =
      (RetryOutcome.nodeUnreachable 0, 2 ^ 32) ∧
    ¬ ((isTxConfirmed 6 0 (fun _ => RpcResult.transportErr)).2 ≤ 0) := by
  have h := retryAux_all_transport (txOp 6 (fun _ => RpcResult.transportErr)) 0
    (u32sub1 0) 0 (fun j _ _ => rfl)
  have hu : u32sub1 0 = 2 ^ 32 - 1 := by decide
  constructor
  · unfold isTxConfirmed withRetry
    rw [h, hu]
    norm_num
  · unfold isTxConfirmed withRetry
    rw [h, hu]
    simp

/-- C9 (amended): for every configured `max_retries ≥ 1` (a `u32`), one
`is_tx_confirmed` call performs at most `max_retries` underlying RPC
attempts; every attempt that is followed by another one failed with a
transport-class error (a structured RPC error from the remote stops the
loop immediately); and if every allowed attempt fails with a transport
error the call returns `BitcoinNodeUnreachable` carrying
`attempts = max_retries` after exactly `max_retries` attempts. -/
theorem c9_retry_bounds (threshold maxR : Nat)
    (client : Nat → RpcResult (Option Nat)) (h1 : 1 ≤ maxR) (h2 : maxR < 2 ^ 32) :
    (isTxConfirmed threshold maxR client).2 ≤ maxR ∧
    (∀ j, j + 1 < (isTxConfirmed threshold maxR client).2 →
      client j = RpcResult.transportErr) ∧
    ((∀ j, j < maxR → client j = RpcResult.transportErr) →
      isTxConfirmed threshold maxR client =
        (RetryOutcome.nodeUnreachable maxR, maxR)) := by
  unfold isTxConfirmed withRetry
  rw [u32sub1_eq maxR h1 h2]
  refine ⟨?_, ?_, ?_⟩
  · have := retryAux_count_le (txOp threshold client) maxR (maxR - 1) 0
    omega
  · intro j hj
    have := retryAux_retry_transport (txOp threshold client) maxR (maxR - 1) 0 j
      (Nat.zero_le j) hj
    exact (txOp_transport_iff threshold client j).mp this
  · intro hall
    have hres := retryAux_all_transport (txOp threshold client) maxR (maxR - 1) 0
      (fun j _ hj2 =>
        (txOp_transport_iff threshold client j).mpr (hall j (by omega)))
    rw [hres]
    have harith : 0 + (maxR - 1) + 1 = maxR := by omega
    rw [harith]

/-- Witness for `c9_retry_bounds` at `max_retries = 3` against an
unreachable node. -/
theorem c9_retry_bounds_witness :
    (isTxConfirmed 6 3 (fun _ => RpcResult.transportErr)).2 ≤ 3 ∧
    (∀ j, j + 1 < (isTxConfirmed 6 3 (fun _ => RpcResult.transportErr)).2 →
      (fun _ => RpcResult.transportErr : Nat → RpcResult (Option Nat)) j =
        RpcResult.transportErr) ∧
    ((∀ j, j < 3 →
        (fun _ => RpcResult.transportErr : Nat → RpcResult (Option Nat)) j =
          RpcResult.transportErr) →
      isTxConfirmed 6 3 (fun _ => RpcResult.transportErr) =
        (RetryOutcome.nodeUnreachable 3, 3)) :=
  c9_retry_bounds 6 3 (fun _ => RpcResult.transportErr) (by decide) (by decide)

theorem closedPartition_singleton_none {db : List SlotRow} {cur : Nat} {a : String}
    {i : List Nat} (hgb : batchGetVisible db a i cur = none) :
    closedPartition db cur [⟨a, i⟩] = [] := by
  simp [closedPartition, List.filterMap_cons, hgb]

theorem activePartition_singleton_none {db : List SlotRow} {cur : Nat} {a : String}
    {i : List Nat} (hgb : batchGetVisible db a i cur = none) :
    activePartition db cur [⟨a, i⟩] = [] := by
  simp [activePartition, List.filterMap_cons, hgb]

theorem absentPartition_singleton_none {db : List SlotRow} {cur : Nat} {a : String}
    {i : List Nat} (hgb : batchGetVisible db a i cur = none) :
    absentPartition db cur [⟨a, i⟩] = [⟨a, i⟩] := by
  simp [absentPartition, List.filter_cons, hgb]

theorem closedPartition_singleton_some {db : List SlotRow} {cur : Nat} {a : String}
    {i : List Nat} {r : SlotRow} (hgb : batchGetVisible db a i cur = some r) :
    closedPartition db cur [⟨a, i⟩] = if r.end_block.isSome then [r] else [] := by
  cases he : r.end_block.isSome <;>
    simp [closedPartition, List.filterMap_cons, hgb, he]

theorem activePartition_singleton_some {db : List SlotRow} {cur : Nat} {a : String}
    {i : List Nat} {r : SlotRow} (hgb : batchGetVisible db a i cur = some r) :
    activePartition db cur [⟨a, i⟩] = if r.end_block.isSome then [] else [r] := by
  cases he : r.end_block.isSome <;>
    simp [activePartition, List.filterMap_cons, hgb, he]

theorem absentPartition_singleton_some {db : List SlotRow} {cur : Nat} {a : String}
    {i : List Nat} {r : SlotRow} (hgb : batchGetVisible db a i cur = some r) :
    absentPartition db cur [⟨a, i⟩] = [] := by
  simp [absentPartition, List.filter_cons, hgb]

/-- C10 (amended): on any table where at most one row of the key is visible
at `current_block`, a one-element `batch_get_slot_status` returns the same
status, fails on the same oracle errors, and performs the same state
mutation as `get_slot_status` with the same arguments; the returned
`revert_value`/`current_value` also agree EXCEPT for a historical-closed row
whose block delta exceeds `revert_threshold`, where the batch returns the
stored values while the single call returns empty ones. -/
theorem c10_singleton_equiv (rt : Nat) (oracle : String → Except Unit Bool)
    (db : List SlotRow) (a : String) (i : List Nat) (cur btc : Nat)
    (hv1 : (visibleRows db a i cur).length ≤ 1) :
    (batchGetSlotStatus rt oracle db cur btc [⟨a, i⟩]).2 =
      (getSlotStatus rt oracle db a i cur btc).2 ∧
    (∀ e, (getSlotStatus rt oracle db a i cur btc).1 = Except.error e →
      (batchGetSlotStatus rt oracle db cur btc [⟨a, i⟩]).1 = Except.error e) ∧
    (∀ resp, (getSlotStatus rt oracle db a i cur btc).1 = Except.ok resp →
      ∃ resp', (batchGetSlotStatus rt oracle db cur btc [⟨a, i⟩]).1 =
          Except.ok [resp'] ∧
        resp'.status = resp.status ∧
        ((resp'.revert_value = resp.revert_value ∧
          resp'.current_value = resp.current_value) ∨
         (∃ r, getSlotQuery db a i cur = some r ∧ r.end_block.isSome = true ∧
           sub64 btc r.btc_block > rt ∧ resp.revert_value = [] ∧
           resp.current_value = [] ∧ resp'.revert_value = r.revert_value ∧
           resp'.current_value = r.current_value))) := by
  cases hv : visibleRows db a i cur with
  | nil =>
    have hga : getSlotQuery db a i cur = none := by
      unfold getSlotQuery; rw [hv]; rfl
    have hgb : batchGetVisible db a i cur = none := by
      unfold batchGetVisible; rw [hv]; rfl
    have hcc : collectConfirms oracle (activePartition db cur [⟨a, i⟩]) =
        Except.ok [] := by
      rw [activePartition_singleton_none hgb]; rfl
    have hbatch := @batchGetSlotStatus_ok rt _ _ _ btc _ _ hcc
    rw [closedPartition_singleton_none hgb, absentPartition_singleton_none hgb,
      activePartition_singleton_none hgb] at hbatch
    simp only [List.map_nil, List.nil_append, List.zip_nil_left, List.filterMap_nil,
      batchUnlockSlots_nil, List.map_cons] at hbatch
    have hsingle : getSlotStatus rt oracle db a i cur btc =
        (Except.ok ⟨GetStatus.Unlocked, a, i, [], []⟩, db) := by
      unfold getSlotStatus; rw [hga]
    refine ⟨by rw [hbatch, hsingle], ?_, ?_⟩
    · intro e he
      rw [hsingle] at he
      simp at he
    · intro resp hresp
      rw [hsingle] at hresp
      simp only [Except.ok.injEq] at hresp
      subst hresp
      exact ⟨⟨GetStatus.Unlocked, a, i, [], []⟩, by rw [hbatch], rfl,
        Or.inl ⟨rfl, rfl⟩⟩
  | cons r rest =>
    have hrest : rest = [] := by
      rw [hv] at hv1
      simp only [List.length_cons] at hv1
      exact List.eq_nil_of_length_eq_zero (by omega)
    subst hrest
    have hga : getSlotQuery db a i cur = some r := by
      unfold getSlotQuery; rw [hv]; rfl
    have hgb : batchGetVisible db a i cur = some r := by
      unfold batchGetVisible; rw [hv]; rfl
    have hkey : r.contract_address = a ∧ r.slot_index = i := by
      have hmem : r ∈ visibleRows db a i cur := by
        rw [hv]; exact List.mem_singleton_self r
      have := (mem_visibleRows.mp hmem).2
      exact ⟨this.1, this.2.1⟩
    cases hend : r.end_block with
    | some eb =>
      have hendS : r.end_block.isSome = true := by rw [hend]; rfl
      have hcc : collectConfirms oracle (activePartition db cur [⟨a, i⟩]) =
          Except.ok [] := by
        rw [activePartition_singleton_some hgb, if_pos hendS]; rfl
      have hbatch := @batchGetSlotStatus_ok rt _ _ _ btc _ _ hcc
      rw [closedPartition_singleton_some hgb, absentPartition_singleton_some hgb,
        activePartition_singleton_some hgb, if_pos hendS, if_pos hendS] at hbatch
      simp only [List.map_nil, List.nil_append, List.append_nil, List.zip_nil_left,
        List.filterMap_nil, batchUnlockSlots_nil, List.map_cons] at hbatch
      have hsingle : getSlotStatus rt oracle db a i cur btc =
          (Except.ok ⟨if sub64 btc r.btc_block > rt then GetStatus.Reverted else
            GetStatus.Unlocked, a, i, [], []⟩, db) := by
        unfold getSlotStatus
        rw [hga]
        simp [hend]
      refine ⟨by rw [hbatch, hsingle], ?_, ?_⟩
      · intro e he
        rw [hsingle] at he
        simp at he
      · intro resp hresp
        rw [hsingle] at hresp
        simp only [Except.ok.injEq] at hresp
        subst hresp
        refine ⟨mkClosedResp rt btc r, by rw [hbatch], rfl, ?_⟩
        by_cases hd : sub64 btc r.btc_block > rt
        · exact Or.inr ⟨r, hga, hendS, hd, rfl, rfl,
            by simp [mkClosedResp, hd], by simp [mkClosedResp, hd]⟩
        · exact Or.inl ⟨by simp [mkClosedResp, hd], by simp [mkClosedResp, hd]⟩
    | none =>
      have hendS : r.end_block.isSome = false := by rw [hend]; rfl
      have hactive : activePartition db cur [⟨a, i⟩] = [r] := by
        rw [activePartition_singleton_some hgb, if_neg (by rw [hendS]; simp)]
      have hclosed : closedPartition db cur [⟨a, i⟩] = [] := by
        rw [closedPartition_singleton_some hgb, if_neg (by rw [hendS]; simp)]
      cases ho : oracle r.btc_txid with
      | error e =>
        cases e
        have hcc : collectConfirms oracle (activePartition db cur [⟨a, i⟩]) =
            Except.error () := by
          rw [hactive]
          unfold collectConfirms
          rw [ho]
        have hbatch := @batchGetSlotStatus_error rt _ _ _ btc _ hcc
        have hsingle : getSlotStatus rt oracle db a i cur btc =
            (Except.error (), db) := by
          unfold getSlotStatus
          rw [hga]
          simp [hend, ho]
        refine ⟨by rw [hbatch, hsingle], ?_, ?_⟩
        · intro e' he'
          cases e'
          rw [hbatch]
        · intro resp hresp
          rw [hsingle] at hresp
          simp at hresp
      | ok c =>
        have hcc : collectConfirms oracle (activePartition db cur [⟨a, i⟩]) =
            Except.ok [c] := by
          rw [hactive]
          unfold collectConfirms
          rw [ho]
          rfl
        have hbatch := @batchGetSlotStatus_ok rt _ _ _ btc _ _ hcc
        rw [hclosed, absentPartition_singleton_some hgb, hactive] at hbatch
        simp only [List.map_nil, List.nil_append, List.append_nil, List.zip_cons_cons,
          List.zip_nil_left, List.map_cons, List.map_nil, List.filterMap_cons,
          List.filterMap_nil] at hbatch
        by_cases hd : sub64 btc r.btc_block > rt
        · rw [if_pos (Or.inl hd)] at hbatch
          have hsingle : getSlotStatus rt oracle db a i cur btc =
              (Except.ok ⟨GetStatus.Reverted, a, i, r.revert_value, r.current_value⟩,
               unlockSlotTx db a i cur) := by
            unfold getSlotStatus
            rw [hga]
            simp [hend, ho, hd]
          have hdb' : batchUnlockSlots db [(r.contract_address, r.slot_index, cur)] =
              unlockSlotTx db a i cur := by
            rw [batchUnlockSlots_singleton, hkey.1, hkey.2]
          refine ⟨by rw [hbatch, hsingle, hdb'], ?_, ?_⟩
          · intro e he
            rw [hsingle] at he
            simp at he
          · intro resp hresp
            rw [hsingle] at hresp
            simp only [Except.ok.injEq] at hresp
            subst hresp
            refine ⟨activeDecision rt btc c r, by rw [hbatch], ?_, Or.inl ⟨?_, ?_⟩⟩ <;>
              unfold activeDecision <;> rw [if_pos (Or.inl hd), if_pos hd]
        · cases c with
          | true =>
            rw [if_pos (Or.inr rfl)] at hbatch
            have hsingle : getSlotStatus rt oracle db a i cur btc =
                (Except.ok ⟨GetStatus.Unlocked, a, i, [], []⟩,
                 unlockSlotTx db a i cur) := by
              unfold getSlotStatus
              rw [hga]
              simp [hend, ho, hd]
            have hdb' : batchUnlockSlots db [(r.contract_address, r.slot_index, cur)] =
                unlockSlotTx db a i cur := by
              rw [batchUnlockSlots_singleton, hkey.1, hkey.2]
            refine ⟨by rw [hbatch, hsingle, hdb'], ?_, ?_⟩
            · intro e he
              rw [hsingle] at he
              simp at he
            · intro resp hresp
              rw [hsingle] at hresp
              simp only [Except.ok.injEq] at hresp
              subst hresp
              refine ⟨activeDecision rt btc true r, by rw [hbatch], ?_,
                Or.inl ⟨?_, ?_⟩⟩ <;>
                unfold activeDecision <;> rw [if_pos (Or.inr rfl), if_neg hd]
          | false =>
            rw [if_neg (by simp [hd])] at hbatch
            simp only [batchUnlockSlots_nil] at hbatch
            have hsingle : getSlotStatus rt oracle db a i cur btc =
                (Except.ok ⟨GetStatus.Locked, a, i, [], []⟩, db) := by
              unfold getSlotStatus
              rw [hga]
              simp [hend, ho, hd]
            refine ⟨by rw [hbatch, hsingle], ?_, ?_⟩
            · intro e he
              rw [hsingle] at he
              simp at he
            · intro resp hresp
              rw [hsingle] at hresp
              simp only [Except.ok.injEq] at hresp
              subst hresp
              refine ⟨activeDecision rt btc false r, by rw [hbatch], ?_,
                Or.inl ⟨?_, ?_⟩⟩ <;>
                unfold activeDecision <;>
                rw [if_neg (by simp [hd])]

/-- Row used in the C10 scenario: historical-closed at block 10 with a block
delta above the threshold. -/
def c10row : SlotRow := ⟨"t10", 100, "d", [0], [4, 5, 6], [7, 8, 9], 1, some 10, 0⟩

/-- C10 fails on the code: for a historical-closed row whose delta exceeds
the revert threshold, `get_slot_status` answers `Reverted` with EMPTY values
while a one-element `batch_get_slot_status` answers `Reverted` WITH the
stored `revert_value`/`current_value`. -/
theorem c10_counterexample :
    ((getSlotStatus 6 (fun _ => Except.ok false) [c10row] "d" [0] 10 110).1 =
      Except.ok ⟨GetStatus.Reverted, "d", [0], [], []⟩) ∧
    ((batchGetSlotStatus 6 (fun _ => Except.ok false) [c10row] 10 110
        [⟨"d", [0]⟩]).1 =
      Except.ok [⟨GetStatus.Reverted, "d", [0], [4, 5, 6], [7, 8, 9]⟩]) ∧
    ([4, 5, 6] : List Nat) ≠ [] := by
  refine ⟨by decide, by decide, by decide⟩

/-- Witness for `c10_singleton_equiv` at the concrete C10 scenario. -/
theorem c10_singleton_equiv_witness :
    (batchGetSlotStatus 6 (fun _ => Except.ok false) [c10row] 10 110
        [⟨"d", [0]⟩]).2 =
      (getSlotStatus 6 (fun _ => Except.ok false) [c10row] "d" [0] 10 110).2 ∧
    (∀ e, (getSlotStatus 6 (fun _ => Except.ok false) [c10row] "d" [0] 10 110).1 =
        Except.error e →
      (batchGetSlotStatus 6 (fun _ => Except.ok false) [c10row] 10 110
        [⟨"d", [0]⟩]).1 = Except.error e) ∧
    (∀ resp, (getSlotStatus 6 (fun _ => Except.ok false) [c10row] "d" [0] 10 110).1 =
        Except.ok resp →
      ∃ resp', (batchGetSlotStatus 6 (fun _ => Except.ok false) [c10row] 10 110
          [⟨"d", [0]⟩]).1 = Except.ok [resp'] ∧
        resp'.status = resp.status ∧
        ((resp'.revert_value = resp.revert_value ∧
          resp'.current_value = resp.current_value) ∨
         (∃ r, getSlotQuery [c10row] "d" [0] 10 = some r ∧
           r.end_block.isSome = true ∧ sub64 110 r.btc_block > 6 ∧
           resp.revert_value = [] ∧ resp.current_value = [] ∧
           resp'.revert_value = r.revert_value ∧
           resp'.current_value = r.current_value))) :=
  c10_singleton_equiv 6 (fun _ => Except.ok false) [c10row] "d" [0] 10 110 (by decide)
